import Mathlib

/-!
Package `clusterpeers`.

A shallow embedding of `src/clusterpeers/clusterpeers.go`, the peer
communication layer of a Paxos node, and the properties of its membership
table, connection manager, quorum bookkeeping and broadcast engine.

Conventions of the embedding.

* `uint64` values are natural numbers; `++` and `--` on a `uint64` variable
  are taken modulo `2 ^ 64`.  The one exception is `replyCount++` in
  `wrapReply`, which runs under the loop test `replyCount < peerCount` and so
  stays below the `uint64` value `peerCount`.
* The Go map `nodes` is an association list.  `m[k]` is `lookup` (the zero
  `Peer` when the key is absent), `m[k] = p` is `store`, and
  `for k, p := range m` visits the entries in list order.  Go leaves the
  iteration order unspecified; the statements about `Connect` and the
  broadcasts are for an arbitrary list, hence for every order the runtime may
  choose.  `ConstructCluster` builds the list itself, in roster order, so the
  order in which it then ranges over the map is an argument of its own.
* A call `peer.comm.Go(method, ...)` on an established client is recorded as
  the event of the peer value it was issued on.  On the nil client
  (`comm = none`) the call dereferences nil inside `net/rpc` and the program
  panics: the operation has no result, which is `none`.
* The outside world (roster file, host name resolution, the order in which
  `range` visits the map while the self identifier is resolved, dial outcomes,
  reply arrival times, the times at which the caller takes results off the
  result channel) enters as explicit arguments.
-/

namespace clusterpeers

/-! ## Data model -/

/-- Number of values of a Go `uint64`. -/
def uint64Size : Nat := 2 ^ 64

/-- Handle of an established `*rpc.Client`. -/
abbrev Conn := Nat

/-- The Go struct `Peer`; `comm = none` is the nil client. -/
structure Peer where
  roleId : Nat
  address : String
  port : String
  comm : Option Conn
  requirePromise : Bool
deriving DecidableEq, Repr

/-- Zero value of `Peer`, what `nodes[k]` yields for a key that is absent. -/
def Peer.zero : Peer :=
  { roleId := 0, address := "", port := "", comm := none, requirePromise := false }

/-- The Go struct `Cluster` (the mutex is left out: every operation below runs
with the lock held and is modelled as one atomic step). -/
structure Cluster where
  roleId : Nat
  nodes : List (Nat × Peer)
  hasConnected : Bool
  skipPromiseCount : Nat
deriving DecidableEq, Repr

/-- Go map read `m[k]`: the stored peer, or the zero value. -/
def lookup : List (Nat × Peer) → Nat → Peer
  | [], _ => Peer.zero
  | (k', p) :: rest, k => if k' = k then p else lookup rest k

/-- Go map write `m[k] = p`: replaces the entry of `k`, or adds one. -/
def store : List (Nat × Peer) → Nat → Peer → List (Nat × Peer)
  | [], k, p => [(k, p)]
  | (k', p') :: rest, k, p =>
    if k' = k then (k, p) :: rest else (k', p') :: store rest k p

/-- Keys of the peer map. -/
def keys (m : List (Nat × Peer)) : List Nat := m.map Prod.fst

/-- Increment of a `uint64`. -/
def incr64 (x : Nat) : Nat := (x + 1) % uint64Size

/-- Decrement of a `uint64`. -/
def decr64 (x : Nat) : Nat := (x + uint64Size - 1) % uint64Size

/-! ## Quorum state -/

/-- The function `GetPeerCount`: `uint64(len(this.nodes))`. -/
def GetPeerCount (this : Cluster) : Nat := this.nodes.length % uint64Size

/-- The function `GetSkipPromiseCount`. -/
def GetSkipPromiseCount (this : Cluster) : Nat := this.skipPromiseCount

/-- The function `SetPromiseRequirement`, lines 152-169. -/
def SetPromiseRequirement (this : Cluster) (roleId : Nat) (required : Bool) : Cluster :=
  let peer := lookup this.nodes roleId
  let skip :=
    if peer.requirePromise != required then
      if required then decr64 this.skipPromiseCount else incr64 this.skipPromiseCount
    else this.skipPromiseCount
  let peer := { peer with requirePromise := required }
  { this with skipPromiseCount := skip, nodes := store this.nodes roleId peer }

/-- Number of peers in the map whose `requirePromise` is false. -/
def exemptPeers (m : List (Nat × Peer)) : Nat :=
  (m.filter (fun e => !e.2.requirePromise)).length

/-- The cached counter agrees with the per-peer flags. -/
def CountConsistent (c : Cluster) : Prop := c.skipPromiseCount = exemptPeers c.nodes

instance (c : Cluster) : Decidable (CountConsistent c) := by
  unfold CountConsistent; infer_instance

/-! ## Membership table -/

/-- What `ConstructCluster` reads from its surroundings: the result of opening
`./coldstorage/peers.txt` together with the successive results of
`csv.Reader.Read` up to `io.EOF`, the result of `os.Hostname`,
`net.LookupHost`, and the order in which the runtime makes the `range` of line
79 visit the entries of the map (Go leaves it unspecified; it is some
arrangement of the entries). -/
structure Host where
  peersFile : Except String (List (Except String (List String)))
  hostname : Except String String
  lookupHost : String → Except String (List String)
  rangeOrder : List (Nat × Peer) → List (Nat × Peer)

/-- The digit loop of `strconv.ParseUint(s, 10, 64)`, with the cutoff test
before the multiplication and the range test after the addition.  The error
texts are abridged. -/
def parseDigits : List Char → Nat → Except String Nat
  | [], n => .ok n
  | c :: cs, n =>
    if 48 ≤ c.toNat ∧ c.toNat ≤ 57 then
      if n ≥ (uint64Size - 1) / 10 + 1 then .error "value out of range"
      else
        let n1 := n * 10 + (c.toNat - 48)
        if n1 > uint64Size - 1 then .error "value out of range"
        else parseDigits cs n1
    else .error "invalid syntax"

/-- The call `strconv.ParseUint(s, 10, 64)`. -/
def ParseUint (s : String) : Except String Nat :=
  if s.data = [] then .error "invalid syntax" else parseDigits s.data 0

/-- The read loop of `ConstructCluster`, lines 50-70.  The result is the map
built so far and the error that ended the loop, if any; `none` is a run-time
panic (a record with fewer than three fields). -/
def readPeers : List (Except String (List String)) → List (Nat × Peer) →
    Option (List (Nat × Peer) × Option String)
  | [], nodes => some (nodes, none)
  | .error e :: _, nodes => some (nodes, some e)
  | .ok record :: rest, nodes =>
    match record with
    | [] => none
    | f0 :: fields =>
      match ParseUint f0 with
      | .error e => some (nodes, some e)
      | .ok roleId =>
        match fields with
        | f1 :: f2 :: _ =>
          readPeers rest (store nodes roleId
            { roleId := roleId, address := f1, port := f2, comm := none,
              requirePromise := true })
        | _ => none

/-- The search loop of lines 79-84 over the entries in the order they are
visited: the key of the first visited peer whose address is the local one, `0`
when there is none. -/
def resolveSelf : List (Nat × Peer) → String → Nat
  | [], _ => 0
  | (id, peer) :: rest, address =>
    if peer.address = address then id else resolveSelf rest address

/-- The three values `ConstructCluster` returns. -/
structure Construction where
  cluster : Cluster
  selfId : Nat
  err : Option String
deriving DecidableEq, Repr

/-- The function `ConstructCluster`, lines 37-94; `none` is a run-time panic. -/
def ConstructCluster (host : Host) (assignedId : Nat) : Option Construction :=
  let newCluster : Cluster :=
    { roleId := 0, nodes := [], hasConnected := false, skipPromiseCount := 0 }
  match host.peersFile with
  | .error e => some ⟨newCluster, 0, some e⟩
  | .ok reads =>
    match readPeers reads [] with
    | none => none
    | some (nodes, some e) => some ⟨{ newCluster with nodes := nodes }, 0, some e⟩
    | some (nodes, none) =>
      let newCluster := { newCluster with nodes := nodes }
      if assignedId = 0 then
        match host.hostname with
        | .error e => some ⟨newCluster, 0, some e⟩
        | .ok name =>
          match host.lookupHost name with
          | .error e => some ⟨newCluster, 0, some e⟩
          | .ok [] => none
          | .ok (address :: _) =>
            let id := resolveSelf (host.rangeOrder nodes) address
            if id = 0 then
              some ⟨{ newCluster with roleId := id }, 0,
                some ("Could not find address " ++ address ++ " in peers table.")⟩
            else some ⟨{ newCluster with roleId := id }, id, none⟩
      else some ⟨{ newCluster with roleId := assignedId }, assignedId, none⟩

/-! ## Connection manager -/

/-- What `Connect` leaves behind: the cluster, the returned error, and the
network addresses it dialled, in order. -/
structure Connection where
  cluster : Cluster
  err : Option String
  dials : List String
deriving DecidableEq, Repr

/-- The loop of `Connect`, lines 124-129, over the entries still to visit.
`dial roleId addr` is the outcome of `rpc.Dial("tcp", addr)` for that peer. -/
def connectLoop (dial : Nat → String → Except String Conn) :
    List (Nat × Peer) → List (Nat × Peer) → List String →
    List (Nat × Peer) × Option String × List String
  | [], nodes, dials => (nodes, none, dials)
  | (roleId, peer) :: rest, nodes, dials =>
    let addr := peer.address ++ ":" ++ peer.port
    match dial roleId addr with
    | .error e => (nodes, some e, dials ++ [addr])
    | .ok connection =>
      connectLoop dial rest (store nodes roleId { peer with comm := some connection })
        (dials ++ [addr])

/-- The function `Connect`, lines 116-133. -/
def Connect (dial : Nat → String → Except String Conn) (this : Cluster) : Connection :=
  if this.hasConnected then
    { cluster := this, err := some "Already connected to peers.", dials := [] }
  else
    match connectLoop dial this.nodes this.nodes [] with
    | (nodes, some e, dials) =>
      { cluster := { this with nodes := nodes }, err := some e, dials := dials }
    | (nodes, none, dials) =>
      { cluster := { this with nodes := nodes, hasConnected := true }, err := none,
        dials := dials }

/-! ## Broadcast engine -/

/-- A call `peer.comm.Go(method, ...)`: the service method and the peer value
whose client it was issued on. -/
structure Send where
  method : String
  target : Peer
deriving DecidableEq, Repr

/-- The loop of `BroadcastPrepareRequest`, lines 192-198.  `none`: the call at
line 195 was issued on a nil client and the program panicked. -/
def prepareLoop : List (Nat × Peer) → Nat → List Send → Option (Nat × List Send)
  | [], peerCount, sends => some (peerCount, sends)
  | (_, peer) :: rest, peerCount, sends =>
    if peer.requirePromise then
      match peer.comm with
      | none => none
      | some _ =>
        prepareLoop rest (incr64 peerCount) (sends ++ [⟨"AcceptorRole.Prepare", peer⟩])
    else prepareLoop rest peerCount sends

/-- The function `BroadcastPrepareRequest`, lines 183-206: the returned `peerCount` and the
sends issued, or `none` when it panics.  The result channel is the one
`wrapReply` fills. -/
def BroadcastPrepareRequest (this : Cluster) : Option (Nat × List Send) :=
  let nodeCount := this.nodes.length % uint64Size
  if this.skipPromiseCount < nodeCount / 2 + 1 then prepareLoop this.nodes 0 []
  else some (0, [])

/-- The loop of `BroadcastProposalRequest`, lines 215-219.  `none`: the call at
line 217 was issued on a nil client and the program panicked. -/
def proposalLoop : List (Nat × Peer) → Nat → List Send → Option (Nat × List Send)
  | [], peerCount, sends => some (peerCount, sends)
  | (_, peer) :: rest, peerCount, sends =>
    match peer.comm with
    | none => none
    | some _ =>
      proposalLoop rest (incr64 peerCount) (sends ++ [⟨"AcceptorRole.Accept", peer⟩])

/-- The function `BroadcastProposalRequest`, lines 209-224, or `none` when it
panics. -/
def BroadcastProposalRequest (this : Cluster) : Option (Nat × List Send) :=
  proposalLoop this.nodes 0 []

/-! ## Reply aggregation -/

/-- The two fields of `rpc.Call` that `wrapReply` reads. -/
structure Call (α : Type) where
  Error : Option String
  Reply : α
deriving DecidableEq, Repr

/-- The Go struct `Response`. -/
structure Response (α : Type) where
  Error : Option String
  Data : α
deriving DecidableEq, Repr

/-- A Go channel: its capacity (`0` for an unbuffered one), the values sent on
it so far, oldest first, which is the order its reader receives them in, and
whether `close` has been called on it. -/
structure Chan (β : Type) where
  capacity : Nat
  queue : List β
  closed : Bool
deriving DecidableEq, Repr

/-- A channel as `make(chan T, capacity)` returns it: empty and open. -/
def Chan.make {β : Type} (capacity : Nat) : Chan β :=
  { capacity := capacity, queue := [], closed := false }

/-- The channel once the send `ch <- v` has gone through. -/
def Chan.send {β : Type} (ch : Chan β) (v : β) : Chan β :=
  { ch with queue := ch.queue ++ [v] }

/-- When a send `ch <- v` that starts at time `now` goes through.  `ready j` is
the time at which the reader of the channel is ready to take its `j`-th value
(counting from 0), `none` if it never is.  The send is number
`ch.queue.length`.  While fewer values than the capacity have been sent there
is room and it goes through at once.  After that it has to wait until the
reader takes the value sent `capacity` sends earlier, which frees a slot; on an
unbuffered channel that is the value being sent, handed over when the reader
is ready for it.  `none`: the send blocks for good. -/
def Chan.sendDone {β : Type} (ch : Chan β) (ready : Nat → Option Nat) (now : Nat) :
    Option Nat :=
  if ch.queue.length < ch.capacity then some now
  else
    match ready (ch.queue.length - ch.capacity) with
    | none => none
    | some r => some (max now r)

/-- The call `close(ch)`. -/
def Chan.close {β : Type} (ch : Chan β) : Chan β := { ch with closed := true }

/-- Outcome of one receive `v, ok := <-ch` when no sender is left. -/
inductive Recv (β : Type) where
  | value (v : β) (rest : Chan β)
  | closed
  | blocked
deriving DecidableEq, Repr

/-- One receive by a reader that has taken none of the values yet, on a
channel whose senders have all finished: the oldest value, else the closed
signal, else the receiver blocks for good. -/
def Chan.recv {β : Type} (ch : Chan β) : Recv β :=
  match ch.queue with
  | v :: q => .value v { ch with queue := q }
  | [] => if ch.closed then .closed else .blocked

/-- The duration `2*time.Second`, in nanoseconds. -/
def replyTimeout : Nat := 2 * 1000000000

/-- The three ways a run of `wrapReply` goes: it leaves the loop at the loop
test, it returns from the `time.After` case, or it blocks for good in the send
of line 243 and never returns. -/
inductive Exit where
  | count
  | timeout
  | never
deriving DecidableEq, Repr

/-- How a run of `wrapReply` went: the result channel, the final
`replyCount`, the time of return (nanoseconds after the start; for a run that
never returns, the time at which it blocked), and the way it went. -/
structure Aggregation (α : Type) where
  forward : Chan (Response α)
  replyCount : Nat
  finishedAt : Nat
  exit : Exit
deriving DecidableEq, Repr

/-- The loop of `wrapReply`, lines 240-251, from loop state `replyCount` at
time `now`.  `arrivals` lists, in the order they reach `endpoint`, the replies
with the time each becomes available (nanoseconds after the start); a reply
not listed never arrives.  Each iteration creates a new timer that fires at
`now + replyTimeout`; the `select` takes whichever of the next reply and the
timer is ready first, and `tie` decides when both become ready at the same
instant.  The reply is then sent on `forward`, which takes until
`Chan.sendDone` says, given the times `ready` at which the caller takes the
results.  `replyCount++` cannot wrap because `replyCount < peerCount`. -/
def wrapReplyFrom {α : Type} (peerCount : Nat) (tie : Nat → Bool)
    (ready : Nat → Option Nat) :
    List (Nat × Call α) → Nat → Nat → Chan (Response α) → Aggregation α
  | [], replyCount, now, forward =>
    if replyCount < peerCount then
      { forward := forward, replyCount := replyCount, finishedAt := now + replyTimeout,
        exit := .timeout }
    else { forward := forward, replyCount := replyCount, finishedAt := now, exit := .count }
  | (t, reply) :: rest, replyCount, now, forward =>
    if replyCount < peerCount then
      if t < now + replyTimeout ∨ (t = now + replyTimeout ∧ tie replyCount = true) then
        match forward.sendDone ready (max now t) with
        | none =>
          { forward := forward, replyCount := replyCount, finishedAt := max now t,
            exit := .never }
        | some sent =>
          wrapReplyFrom peerCount tie ready rest (replyCount + 1) sent
            (forward.send { Error := reply.Error, Data := reply.Reply })
      else
        { forward := forward, replyCount := replyCount, finishedAt := now + replyTimeout,
          exit := .timeout }
    else { forward := forward, replyCount := replyCount, finishedAt := now, exit := .count }

/-- The function `wrapReply`, lines 238-252. -/
def wrapReply {α : Type} (peerCount : Nat) (tie : Nat → Bool) (ready : Nat → Option Nat)
    (arrivals : List (Nat × Call α)) (forward : Chan (Response α)) : Aggregation α :=
  wrapReplyFrom peerCount tie ready arrivals 0 0 forward

/-- The loop of `Connect` read as one pass that rewrites the entries where they
stand and stops at the first failed dial: the entries, the error, the dialled
addresses.  `connectLoop_eq_inPlace` shows that `connectLoop` computes this on
a map with distinct keys. -/
def connectInPlace (dial : Nat → String → Except String Conn) :
    List (Nat × Peer) → List (Nat × Peer) × Option String × List String
  | [] => ([], none, [])
  | (roleId, peer) :: rest =>
    match dial roleId (peer.address ++ ":" ++ peer.port) with
    | .error e => ((roleId, peer) :: rest, some e, [peer.address ++ ":" ++ peer.port])
    | .ok connection =>
      ((roleId, { peer with comm := some connection }) :: (connectInPlace dial rest).1,
        (connectInPlace dial rest).2.1,
        (peer.address ++ ":" ++ peer.port) :: (connectInPlace dial rest).2.2)

/-- The part of a map entry that `Connect` has no business changing. -/
def identity (e : Nat × Peer) : Nat × Nat × String × String × Bool :=
  (e.1, e.2.roleId, e.2.address, e.2.port, e.2.requirePromise)

/-- A caller that receives from the result channel until it is closed
(`for r := range responses`), from the first value on, seen once the
aggregation has ended: the values it receives, and whether its loop ends
(`true`) or it blocks on an empty open channel (`false`).  `none` when `fuel`
receives were not enough to tell. -/
def readUntilClosed {β : Type} : Nat → Chan β → Option (List β × Bool)
  | 0, _ => none
  | fuel + 1, ch =>
    match ch.recv with
    | .value v rest =>
      match readUntilClosed fuel rest with
      | none => none
      | some (vs, ended) => some (v :: vs, ended)
    | .closed => some ([], true)
    | .blocked => some ([], false)

/-- What `wrapReply` forwards for a reply. -/
def toResponse {α : Type} (reply : Call α) : Response α :=
  { Error := reply.Error, Data := reply.Reply }

/-- The clock of the collection loop after it has received the replies that
arrived at the given times, starting from `now`, when no send had to wait. -/
def clockAfter (now : Nat) (times : List Nat) : Nat := times.foldl max now

/-! ## Sample inputs -/

/-- A peer as `ConstructCluster` loads it. -/
def loadedPeer (roleId : Nat) (address port : String) : Peer :=
  { roleId := roleId, address := address, port := port, comm := none, requirePromise := true }

/-- A roster of one record, and a host whose address is in it. -/
def soloHost : Host :=
  { peersFile := .ok [.ok ["1", "10.0.0.1", "7001"]],
    hostname := .ok "node1",
    lookupHost := fun _ => .ok ["10.0.0.1"],
    rangeOrder := List.reverse }

/-- The cluster `ConstructCluster` builds from `soloHost`. -/
def soloCluster : Cluster :=
  { roleId := 1, nodes := [(1, loadedPeer 1 "10.0.0.1" "7001")], hasConnected := false,
    skipPromiseCount := 0 }

/-- A roster of three records. -/
def trioHost : Host :=
  { peersFile := .ok [.ok ["1", "10.0.0.1", "7001"], .ok ["2", "10.0.0.2", "7002"],
      .ok ["3", "10.0.0.3", "7003"]],
    hostname := .ok "node2",
    lookupHost := fun _ => .ok ["10.0.0.2"],
    rangeOrder := List.reverse }

/-- The cluster `ConstructCluster` builds from `trioHost`, not yet connected. -/
def trioCluster : Cluster :=
  { roleId := 2,
    nodes := [(1, loadedPeer 1 "10.0.0.1" "7001"), (2, loadedPeer 2 "10.0.0.2" "7002"),
      (3, loadedPeer 3 "10.0.0.3" "7003")],
    hasConnected := false,
    skipPromiseCount := 0 }

/-- A peer with an established client and the given flag. -/
def connectedPeer (roleId : Nat) (address port : String) (flag : Bool) : Peer :=
  { roleId := roleId, address := address, port := port, comm := some (100 + roleId),
    requirePromise := flag }

/-- Five connected peers with the given flags and counter. -/
def fiveCluster (f1 f2 f3 f4 f5 : Bool) (skip : Nat) : Cluster :=
  { roleId := 1,
    nodes := [(1, connectedPeer 1 "10.0.0.1" "7001" f1),
      (2, connectedPeer 2 "10.0.0.2" "7002" f2),
      (3, connectedPeer 3 "10.0.0.3" "7003" f3),
      (4, connectedPeer 4 "10.0.0.4" "7004" f4),
      (5, connectedPeer 5 "10.0.0.5" "7005" f5)],
    hasConnected := true,
    skipPromiseCount := skip }

/-- A network in which every dial succeeds. -/
def dialAll : Nat → String → Except String Conn := fun roleId _ => .ok (100 + roleId)

/-- A network in which peer 2 cannot be reached. -/
def dialButTwo : Nat → String → Except String Conn := fun roleId _ =>
  if roleId = 2 then .error "connection refused" else .ok (100 + roleId)

/-- A successful reply carrying `n`. -/
def okReply (n : Nat) : Call Nat := { Error := none, Reply := n }

/-- A caller that never takes a result. -/
def neverReady : Nat → Option Nat := fun _ => none

/-- A caller that is ready for every result 5 seconds after the start. -/
def readyAtFive : Nat → Option Nat := fun _ => some 5000000000

/-! ## Map lemmas -/

theorem lookup_store_same (m : List (Nat × Peer)) (k : Nat) (p : Peer) :
    lookup (store m k p) k = p := by
  induction m with
  | nil => simp [store, lookup]
  | cons e rest ih =>
    obtain ⟨k', p'⟩ := e
    by_cases h : k' = k
    · simp [store, lookup, h]
    · simp [store, lookup, h, ih]

theorem store_store_same (m : List (Nat × Peer)) (k : Nat) (p q : Peer) :
    store (store m k p) k q = store m k q := by
  induction m with
  | nil => simp [store]
  | cons e rest ih =>
    obtain ⟨k', p'⟩ := e
    by_cases h : k' = k
    · simp [store, h]
    · simp [store, h, ih]

theorem keys_store_of_mem (m : List (Nat × Peer)) (k : Nat) (p : Peer)
    (h : k ∈ keys m) : keys (store m k p) = keys m := by
  induction m with
  | nil => simp [keys] at h
  | cons e rest ih =>
    obtain ⟨k', p'⟩ := e
    by_cases hk : k' = k
    · simp [store, keys, hk]
    · have hr : k ∈ keys rest := by
        simp only [keys, List.map_cons, List.mem_cons] at h
        rcases h with h | h
        · exact absurd h.symm hk
        · exact h
      have := ih hr
      simp only [keys] at this
      simp [store, keys, hk, this]

theorem mem_keys_store (m : List (Nat × Peer)) (k : Nat) (p : Peer) (j : Nat) :
    j ∈ keys (store m k p) ↔ j = k ∨ j ∈ keys m := by
  induction m with
  | nil => simp [store, keys]
  | cons e rest ih =>
    obtain ⟨k', p'⟩ := e
    by_cases hk : k' = k
    · subst hk; simp [store, keys]
    · simp only [keys] at ih
      simp only [store, hk, if_false, keys, List.map_cons, List.mem_cons, ih]
      tauto

theorem length_store_of_mem (m : List (Nat × Peer)) (k : Nat) (p : Peer)
    (h : k ∈ keys m) : (store m k p).length = m.length := by
  have := congrArg List.length (keys_store_of_mem m k p h)
  simpa [keys] using this

theorem exemptPeers_le_length (m : List (Nat × Peer)) : exemptPeers m ≤ m.length := by
  unfold exemptPeers
  exact List.length_filter_le _ _

/-- Replacing the entry of a present key moves the number of exempt peers by
the difference of the two flags. -/
theorem exemptPeers_store_of_mem (m : List (Nat × Peer)) (k : Nat) (p : Peer)
    (h : k ∈ keys m) :
    exemptPeers (store m k p) + (if (lookup m k).requirePromise then 0 else 1) =
      exemptPeers m + (if p.requirePromise then 0 else 1) := by
  induction m with
  | nil => simp [keys] at h
  | cons e rest ih =>
    obtain ⟨k', p'⟩ := e
    by_cases hk : k' = k
    · cases hp : p.requirePromise <;> cases hp' : p'.requirePromise <;>
        simp [store, lookup, hk, exemptPeers, List.filter_cons, hp, hp']
    · have hr : k ∈ keys rest := by
        simp only [keys, List.map_cons, List.mem_cons] at h
        rcases h with h | h
        · exact absurd h.symm hk
        · exact h
      have := ih hr
      simp only [exemptPeers] at this
      cases hp' : p'.requirePromise <;>
        simp [store, lookup, hk, exemptPeers, List.filter_cons, hp'] <;> omega

/-- Adding an entry under an absent key adds its flag to the number of exempt
peers. -/
theorem exemptPeers_store_of_not_mem (m : List (Nat × Peer)) (k : Nat) (p : Peer)
    (h : k ∉ keys m) :
    exemptPeers (store m k p) = exemptPeers m + (if p.requirePromise then 0 else 1) := by
  induction m with
  | nil => cases hp : p.requirePromise <;> simp [store, exemptPeers, hp]
  | cons e rest ih =>
    obtain ⟨k', p'⟩ := e
    have hk : ¬ k' = k := by
      intro hk; apply h; simp [keys, hk]
    have hr : k ∉ keys rest := by
      intro hr; apply h; simp only [keys, List.map_cons, List.mem_cons]; right; exact hr
    have := ih hr
    simp only [exemptPeers] at this
    cases hp' : p'.requirePromise <;>
      simp [store, hk, exemptPeers, List.filter_cons, hp'] <;> omega

/-- A peer that requires a promise is in the map: the zero value does not. -/
theorem mem_keys_of_requirePromise (m : List (Nat × Peer)) (k : Nat)
    (h : (lookup m k).requirePromise = true) : k ∈ keys m := by
  induction m with
  | nil => simp [lookup, Peer.zero] at h
  | cons e rest ih =>
    obtain ⟨k', p'⟩ := e
    by_cases hk : k' = k
    · simp [keys, hk]
    · simp only [lookup, hk, if_false] at h
      simp only [keys, List.map_cons, List.mem_cons]
      right; exact ih h

/-! ## Quorum state: the counter and the flags -/

/-- For a role that is a key of the map, `SetPromiseRequirement` keeps the
counter equal to the number of exempt peers. -/
theorem SetPromiseRequirement_consistent_of_mem (c : Cluster) (roleId : Nat)
    (required : Bool) (hsize : c.nodes.length < uint64Size) (hmem : roleId ∈ keys c.nodes)
    (hc : CountConsistent c) : CountConsistent (SetPromiseRequirement c roleId required) := by
  have hle := exemptPeers_le_length c.nodes
  have hst := exemptPeers_store_of_mem c.nodes roleId
    { lookup c.nodes roleId with requirePromise := required } hmem
  have hle2 := exemptPeers_le_length
    (store c.nodes roleId { lookup c.nodes roleId with requirePromise := required })
  rw [length_store_of_mem _ _ _ hmem] at hle2
  unfold CountConsistent at hc ⊢
  simp only [SetPromiseRequirement]
  cases hreq : required <;> cases hold : (lookup c.nodes roleId).requirePromise <;>
    simp only [hreq, hold, if_true, if_false, Bool.false_eq_true, bne_self_eq_false,
      Bool.true_bne, Bool.false_bne, Bool.not_true, Bool.not_false, bne_iff_ne, ne_eq,
      not_true_eq_false, not_false_eq_true, reduceCtorEq] at hst hle2 ⊢
  · omega
  · rw [incr64, Nat.mod_eq_of_lt (by omega)]; omega
  · have : 0 < c.skipPromiseCount := by omega
    rw [decr64]
    have h2 : c.skipPromiseCount + uint64Size - 1 = (c.skipPromiseCount - 1) + uint64Size := by
      omega
    rw [h2, Nat.add_mod_right, Nat.mod_eq_of_lt (by omega)]; omega
  · omega

/-- C2: at a role that is not a key of the peer map `SetPromiseRequirement`
leaves the counter different from the number of peers whose `requirePromise`
is false.  On the one-peer cluster that `ConstructCluster` builds, where the
two agree, `SetPromiseRequirement(2, false)` adds an exempt zero-valued peer and
leaves the counter at 0, and `SetPromiseRequirement(2, true)` decrements the
counter from 0 to `2 ^ 64 - 1` with no exempt peer in the map. -/
theorem SetPromiseRequirement_unknown_role_breaks_count :
    ConstructCluster soloHost 0 = some ⟨soloCluster, 1, none⟩ ∧
    CountConsistent soloCluster ∧ 2 ∉ keys soloCluster.nodes ∧
    (SetPromiseRequirement soloCluster 2 false).skipPromiseCount = 0 ∧
    exemptPeers (SetPromiseRequirement soloCluster 2 false).nodes = 1 ∧
    ¬ CountConsistent (SetPromiseRequirement soloCluster 2 false) ∧
    (SetPromiseRequirement soloCluster 2 true).skipPromiseCount = 18446744073709551615 ∧
    exemptPeers (SetPromiseRequirement soloCluster 2 true).nodes = 0 ∧
    ¬ CountConsistent (SetPromiseRequirement soloCluster 2 true) := by
  refine ⟨by decide, by decide, by decide, by decide, by decide, by decide, by decide,
    by decide, by decide⟩

/-- C7: `SetPromiseRequirement(roleId, v)` applied twice yields exactly the
state obtained by applying it once, for every state, role and value; and for a
loaded peer whose `requirePromise` is true, in a state whose counter agrees
with the flags of its fewer than `2 ^ 64` peers, two calls
`SetPromiseRequirement(id, false)` leave `GetSkipPromiseCount()` exactly 1
greater than before the first call. -/
theorem SetPromiseRequirement_idempotent (c : Cluster) (roleId : Nat) (v : Bool) :
    SetPromiseRequirement (SetPromiseRequirement c roleId v) roleId v =
      SetPromiseRequirement c roleId v ∧
    ((lookup c.nodes roleId).requirePromise = true → CountConsistent c →
      c.nodes.length < uint64Size →
      GetSkipPromiseCount
          (SetPromiseRequirement (SetPromiseRequirement c roleId false) roleId false) =
        GetSkipPromiseCount c + 1) := by
  have once : ∀ w : Bool,
      SetPromiseRequirement (SetPromiseRequirement c roleId w) roleId w =
        SetPromiseRequirement c roleId w := by
    intro w
    simp [SetPromiseRequirement, lookup_store_same, store_store_same]
  refine ⟨once v, ?_⟩
  intro hreq hc hsize
  rw [once false]
  have hmem := mem_keys_of_requirePromise c.nodes roleId hreq
  have hafter := SetPromiseRequirement_consistent_of_mem c roleId false hsize hmem hc
  have hst := exemptPeers_store_of_mem c.nodes roleId
    { lookup c.nodes roleId with requirePromise := false } hmem
  simp only [hreq, if_true, Bool.false_eq_true, if_false, Nat.add_zero] at hst
  unfold CountConsistent at hafter hc
  have hnodes : (SetPromiseRequirement c roleId false).nodes =
      store c.nodes roleId { lookup c.nodes roleId with requirePromise := false } := rfl
  rw [hnodes, hst] at hafter
  simp only [GetSkipPromiseCount]
  rw [hafter, hc]

/-- Witness of `SetPromiseRequirement_idempotent`: peer 2 of a five-peer cluster
with no exempt peer. -/
theorem SetPromiseRequirement_idempotent_witness :
    ((lookup (fiveCluster true true true true true 0).nodes 2).requirePromise = true ∧
      CountConsistent (fiveCluster true true true true true 0) ∧
      (fiveCluster true true true true true 0).nodes.length < uint64Size) ∧
    GetSkipPromiseCount (SetPromiseRequirement (SetPromiseRequirement
      (fiveCluster true true true true true 0) 2 false) 2 false) =
      GetSkipPromiseCount (fiveCluster true true true true true 0) + 1 :=
  ⟨⟨by decide, by decide, by decide⟩,
    (SetPromiseRequirement_idempotent (fiveCluster true true true true true 0) 2 false).2
      (by decide) (by decide) (by decide)⟩

/-! ## Broadcast engine: who is contacted -/

theorem prepareLoop_eq (m : List (Nat × Peer)) (n : Nat) (sends : List Send)
    (h : n + (m.filter (fun e => e.2.requirePromise)).length < uint64Size)
    (hcomm : ∀ e ∈ m, e.2.requirePromise = true → e.2.comm ≠ none) :
    prepareLoop m n sends =
      some (n + (m.filter (fun e => e.2.requirePromise)).length,
        sends ++ (m.filter (fun e => e.2.requirePromise)).map
          (fun e => ⟨"AcceptorRole.Prepare", e.2⟩)) := by
  induction m generalizing n sends with
  | nil => simp [prepareLoop]
  | cons e rest ih =>
    obtain ⟨k, p⟩ := e
    have hrest : ∀ e ∈ rest, e.2.requirePromise = true → e.2.comm ≠ none :=
      fun e he => hcomm e (List.mem_cons_of_mem _ he)
    cases hp : p.requirePromise
    · simp only [List.filter_cons, hp, Bool.false_eq_true, if_false] at h ⊢
      simp only [prepareLoop, hp, Bool.false_eq_true, if_false]
      exact ih n sends h hrest
    · simp only [List.filter_cons, hp, if_true, List.length_cons] at h ⊢
      have hn : incr64 n = n + 1 := by
        rw [incr64, Nat.mod_eq_of_lt (by omega)]
      cases hcm : p.comm with
      | none => exact absurd hcm (hcomm (k, p) (List.mem_cons_self _ _) hp)
      | some conn =>
        simp only [prepareLoop, hp, if_true, hcm]
        rw [hn, ih (n + 1) _ (by omega) hrest]
        simp only [List.map_cons, List.append_assoc, List.singleton_append, List.length_cons,
          Option.some.injEq, Prod.mk.injEq, and_true]
        omega

theorem proposalLoop_eq (m : List (Nat × Peer)) (n : Nat) (sends : List Send)
    (h : n + m.length < uint64Size) (hcomm : ∀ e ∈ m, e.2.comm ≠ none) :
    proposalLoop m n sends =
      some (n + m.length, sends ++ m.map (fun e => ⟨"AcceptorRole.Accept", e.2⟩)) := by
  induction m generalizing n sends with
  | nil => simp [proposalLoop]
  | cons e rest ih =>
    obtain ⟨k, p⟩ := e
    simp only [List.length_cons] at h
    have hn : incr64 n = n + 1 := by
      rw [incr64, Nat.mod_eq_of_lt (by omega)]
    cases hcm : p.comm with
    | none => exact absurd hcm (hcomm (k, p) (List.mem_cons_self _ _))
    | some conn =>
      simp only [proposalLoop, hcm]
      rw [hn, ih (n + 1) _ (by omega) (fun e he => hcomm e (List.mem_cons_of_mem _ he))]
      simp only [List.map_cons, List.append_assoc, List.singleton_append, List.length_cons,
        Option.some.injEq, Prod.mk.injEq, and_true]
      omega

/-- C1, as stated, fails on a cluster that has not connected: on the cluster
`ConstructCluster` builds from the three-record roster every peer requires a
promise and has the nil client, `skipPromiseCount = 0 < 3/2 + 1`, and
`BroadcastPrepareRequest` panics at its first send instead of returning a
`peerCount`. -/
theorem BroadcastPrepareRequest_nil_client_panics :
    ConstructCluster trioHost 0 = some ⟨trioCluster, 2, none⟩ ∧
    trioCluster.skipPromiseCount < trioCluster.nodes.length / 2 + 1 ∧
    BroadcastPrepareRequest trioCluster = none := by
  refine ⟨by decide, by decide, by decide⟩

/-- C1 (amended): with `n` peers (a Go map holds fewer than `2 ^ 64`), when
`skipPromiseCount < n/2 + 1` and every peer whose `requirePromise` is true
holds an established client, `BroadcastPrepareRequest` returns as `peerCount`
the number of peers whose `requirePromise` is true and issues one prepare send
per such peer and no other; when `skipPromiseCount >= n/2 + 1` it issues no
send and returns 0; with 5 peers and `skipPromiseCount = 3` nothing is sent. -/
theorem BroadcastPrepareRequest_policy (c : Cluster) (hsize : c.nodes.length < uint64Size) :
    (c.skipPromiseCount < c.nodes.length / 2 + 1 →
      (∀ e ∈ c.nodes, e.2.requirePromise = true → e.2.comm ≠ none) →
      BroadcastPrepareRequest c =
        some ((c.nodes.filter (fun e => e.2.requirePromise)).length,
          (c.nodes.filter (fun e => e.2.requirePromise)).map
            (fun e => ⟨"AcceptorRole.Prepare", e.2⟩))) ∧
    (c.nodes.length / 2 + 1 ≤ c.skipPromiseCount →
      BroadcastPrepareRequest c = some (0, [])) ∧
    (c.nodes.length = 5 → c.skipPromiseCount = 3 →
      BroadcastPrepareRequest c = some (0, [])) := by
  have hmod : c.nodes.length % uint64Size = c.nodes.length := Nat.mod_eq_of_lt hsize
  have hskip : c.nodes.length / 2 + 1 ≤ c.skipPromiseCount →
      BroadcastPrepareRequest c = some (0, []) := by
    intro h
    have : ¬ c.skipPromiseCount < c.nodes.length / 2 + 1 := by omega
    simp [BroadcastPrepareRequest, hmod, this]
  refine ⟨?_, hskip, ?_⟩
  · intro h hcomm
    have hle : (c.nodes.filter (fun e => e.2.requirePromise)).length ≤ c.nodes.length :=
      List.length_filter_le _ _
    have := prepareLoop_eq c.nodes 0 [] (by omega) hcomm
    simp [BroadcastPrepareRequest, hmod, h, this]
  · intro h5 h3
    exact hskip (by omega)

/-- Witness of `BroadcastPrepareRequest_policy`: five connected peers of which
two are exempt (the other three are contacted) and five peers with three
exempt (nobody is). -/
theorem BroadcastPrepareRequest_policy_witness :
    ((fiveCluster true false true false true 2).nodes.length < uint64Size ∧
      (BroadcastPrepareRequest (fiveCluster true false true false true 2)).map Prod.fst =
        some 3) ∧
    ((fiveCluster false true false true false 3).nodes.length = 5 ∧
      (fiveCluster false true false true false 3).skipPromiseCount = 3 ∧
      BroadcastPrepareRequest (fiveCluster false true false true false 3) = some (0, [])) :=
  ⟨⟨by decide,
      (congrArg (Option.map Prod.fst)
        ((BroadcastPrepareRequest_policy (fiveCluster true false true false true 2)
          (by decide)).1 (by decide) (by decide))).trans (by decide)⟩,
    ⟨by decide, by decide,
      (BroadcastPrepareRequest_policy (fiveCluster false true false true false 3)
        (by decide)).2.2 (by decide) (by decide)⟩⟩

/-- C3, as stated, fails on a cluster that has not connected: on the cluster
`ConstructCluster` builds from the three-record roster every peer has the nil
client and `BroadcastProposalRequest` panics at its first send instead of
returning a `peerCount`. -/
theorem BroadcastProposalRequest_nil_client_panics :
    ConstructCluster trioHost 0 = some ⟨trioCluster, 2, none⟩ ∧
    (∀ e ∈ trioCluster.nodes, e.2.comm = none) ∧
    BroadcastProposalRequest trioCluster = none := by
  refine ⟨by decide, by decide, by decide⟩

/-- C3 (amended): on a cluster state in which every peer holds an established
client, `BroadcastProposalRequest` issues one accept send per entry of the peer
map and returns the number of peers as `peerCount` (a Go map holds fewer than
`2 ^ 64`), whatever the `requirePromise` flags and `skipPromiseCount` are: a
cluster with the same clients and any other flags and counter gets the same
count and the same clients contacted. -/
theorem BroadcastProposalRequest_contacts_all (c : Cluster)
    (hsize : c.nodes.length < uint64Size) (hcomm : ∀ e ∈ c.nodes, e.2.comm ≠ none) :
    BroadcastProposalRequest c =
      some (c.nodes.length, c.nodes.map (fun e => ⟨"AcceptorRole.Accept", e.2⟩)) ∧
    c.nodes.length = GetPeerCount c ∧
    (∀ d : Cluster, d.nodes.map (fun e => e.2.comm) = c.nodes.map (fun e => e.2.comm) →
      (BroadcastProposalRequest d).map
          (fun r => (r.1, r.2.map (fun s => s.target.comm))) =
        (BroadcastProposalRequest c).map
          (fun r => (r.1, r.2.map (fun s => s.target.comm)))) := by
  have hc := proposalLoop_eq c.nodes 0 [] (by omega) hcomm
  refine ⟨?_, ?_, ?_⟩
  · simp [BroadcastProposalRequest, hc]
  · simp [GetPeerCount, Nat.mod_eq_of_lt hsize]
  · intro d hd
    have hlen : d.nodes.length = c.nodes.length := by
      have := congrArg List.length hd
      simpa using this
    have hdcomm : ∀ e ∈ d.nodes, e.2.comm ≠ none := by
      intro e he
      have hin : e.2.comm ∈ d.nodes.map (fun e => e.2.comm) :=
        List.mem_map.mpr ⟨e, he, rfl⟩
      rw [hd] at hin
      obtain ⟨e', he', heq⟩ := List.mem_map.mp hin
      rw [← heq]
      exact hcomm e' he'
    have hdl := proposalLoop_eq d.nodes 0 [] (by omega) hdcomm
    simp only [BroadcastProposalRequest, hc, hdl, Option.map_some', List.nil_append,
      List.map_map, Nat.zero_add, Option.some.injEq, Prod.mk.injEq]
    exact ⟨hlen, hd⟩

/-- Witness of `BroadcastProposalRequest_contacts_all`: five connected peers,
all of them exempt, `skipPromiseCount` equal to the peer count. -/
theorem BroadcastProposalRequest_contacts_all_witness :
    ((fiveCluster false false false false false 5).nodes.length < uint64Size ∧
      ∀ e ∈ (fiveCluster false false false false false 5).nodes, e.2.comm ≠ none) ∧
    (fiveCluster false false false false false 5).skipPromiseCount =
      GetPeerCount (fiveCluster false false false false false 5) ∧
    (BroadcastProposalRequest (fiveCluster false false false false false 5)).map Prod.fst =
      some 5 :=
  ⟨⟨by decide, by decide⟩, by decide,
    (congrArg (Option.map Prod.fst)
      (BroadcastProposalRequest_contacts_all (fiveCluster false false false false false 5)
        (by decide) (by decide)).1).trans (by decide)⟩

/-! ## Connection manager -/

theorem store_append_of_not_mem (pre rest : List (Nat × Peer)) (k : Nat) (p q : Peer)
    (h : k ∉ keys pre) : store (pre ++ (k, p) :: rest) k q = pre ++ (k, q) :: rest := by
  induction pre with
  | nil => simp [store]
  | cons e pre ih =>
    obtain ⟨k', p'⟩ := e
    have hk : ¬ k' = k := by
      intro hk; apply h; simp [keys, hk]
    have hr : k ∉ keys pre := by
      intro hr; apply h; simp only [keys, List.map_cons, List.mem_cons]; right; exact hr
    simp [store, hk, ih hr]

/-- On a map with distinct keys the loop of `Connect` rewrites the entries
where they stand. -/
theorem connectLoop_eq_inPlace (dial : Nat → String → Except String Conn)
    (todo pre : List (Nat × Peer)) (dials : List String)
    (h : (keys (pre ++ todo)).Nodup) :
    connectLoop dial todo (pre ++ todo) dials =
      (pre ++ (connectInPlace dial todo).1, (connectInPlace dial todo).2.1,
        dials ++ (connectInPlace dial todo).2.2) := by
  induction todo generalizing pre dials with
  | nil => simp [connectLoop, connectInPlace]
  | cons e rest ih =>
    obtain ⟨k, p⟩ := e
    have hk : k ∉ keys pre := by
      simp only [keys, List.map_append, List.map_cons] at h
      have := (List.nodup_append.mp h).2.2
      intro hmem
      exact this hmem (List.mem_cons_self _ _)
    cases hd : dial k (p.address ++ ":" ++ p.port) with
    | error err => simp [connectLoop, connectInPlace, hd]
    | ok conn =>
      have h2 : (keys ((pre ++ [(k, { p with comm := some conn })]) ++ rest)).Nodup := by
        simpa [keys] using h
      have := ih (pre ++ [(k, { p with comm := some conn })])
        (dials ++ [p.address ++ ":" ++ p.port]) h2
      simp only [connectLoop, connectInPlace, hd]
      rw [store_append_of_not_mem _ _ _ _ _ hk]
      simpa using this

theorem connectInPlace_identity (dial : Nat → String → Except String Conn)
    (m : List (Nat × Peer)) : (connectInPlace dial m).1.map identity = m.map identity := by
  induction m with
  | nil => simp [connectInPlace]
  | cons e rest ih =>
    obtain ⟨k, p⟩ := e
    cases hd : dial k (p.address ++ ":" ++ p.port) with
    | error err => simp [connectInPlace, hd]
    | ok conn => simp [connectInPlace, hd, ih, identity]

theorem connectInPlace_all_ok (dial : Nat → String → Except String Conn)
    (m : List (Nat × Peer))
    (h : ∀ e ∈ m, ∃ conn, dial e.1 (e.2.address ++ ":" ++ e.2.port) = .ok conn) :
    (connectInPlace dial m).2.1 = none ∧
    ∀ e ∈ (connectInPlace dial m).1,
      ∃ conn, dial e.1 (e.2.address ++ ":" ++ e.2.port) = .ok conn ∧ e.2.comm = some conn := by
  induction m with
  | nil => simp [connectInPlace]
  | cons e rest ih =>
    obtain ⟨k, p⟩ := e
    obtain ⟨conn, hd⟩ := h (k, p) (List.mem_cons_self _ _)
    have hrest := ih (fun e he => h e (List.mem_cons_of_mem _ he))
    simp only at hd
    simp only [connectInPlace, hd]
    refine ⟨hrest.1, ?_⟩
    intro e he
    rcases List.mem_cons.mp he with he | he
    · subst he; exact ⟨conn, hd, rfl⟩
    · exact hrest.2 e he

theorem connectInPlace_some_error (dial : Nat → String → Except String Conn)
    (m : List (Nat × Peer))
    (h : ∃ e ∈ m, ∃ err, dial e.1 (e.2.address ++ ":" ++ e.2.port) = .error err) :
    ∃ e ∈ m, ∃ err, dial e.1 (e.2.address ++ ":" ++ e.2.port) = .error err ∧
      (connectInPlace dial m).2.1 = some err := by
  induction m with
  | nil => simp at h
  | cons e rest ih =>
    obtain ⟨k, p⟩ := e
    cases hd : dial k (p.address ++ ":" ++ p.port) with
    | error err =>
      exact ⟨(k, p), List.mem_cons_self _ _, err, hd, by simp [connectInPlace, hd]⟩
    | ok conn =>
      obtain ⟨e, he, err, herr⟩ := h
      have hin : e ∈ rest := by
        rcases List.mem_cons.mp he with he | he
        · subst he; simp only at herr; rw [hd] at herr; cases herr
        · exact he
      obtain ⟨e', he', err', hd', hres⟩ := ih ⟨e, hin, err, herr⟩
      exact ⟨e', List.mem_cons_of_mem _ he', err', hd', by simp [connectInPlace, hd, hres]⟩

/-- What `Connect` computes on a cluster that has not connected. -/
theorem Connect_fresh (dial : Nat → String → Except String Conn) (c : Cluster)
    (hfresh : c.hasConnected = false) (hkeys : (keys c.nodes).Nodup) :
    (Connect dial c).cluster.nodes = (connectInPlace dial c.nodes).1 ∧
    (Connect dial c).err = (connectInPlace dial c.nodes).2.1 ∧
    (Connect dial c).cluster.hasConnected = ((connectInPlace dial c.nodes).2.1).isNone ∧
    (Connect dial c).cluster.skipPromiseCount = c.skipPromiseCount ∧
    (Connect dial c).cluster.roleId = c.roleId := by
  have := connectLoop_eq_inPlace dial c.nodes [] [] (by simpa using hkeys)
  simp only [List.nil_append] at this
  cases herr : (connectInPlace dial c.nodes).2.1 with
  | none => simp [Connect, hfresh, this, herr]
  | some err => simp [Connect, hfresh, this, herr]

/-- C8: on a cluster view whose `hasConnected` is true, `Connect` returns the
already-connected error, dials nobody, and leaves the whole state as it was. -/
theorem Connect_again_rejected (dial : Nat → String → Except String Conn) (c : Cluster)
    (h : c.hasConnected = true) :
    Connect dial c =
      { cluster := c, err := some "Already connected to peers.", dials := [] } := by
  simp [Connect, h]

/-- Witness of `Connect_again_rejected`: the three-peer cluster after a
`Connect` in which every dial succeeded. -/
theorem Connect_again_rejected_witness :
    (Connect dialAll trioCluster).err = none ∧
    (Connect dialAll trioCluster).cluster.hasConnected = true ∧
    Connect dialButTwo (Connect dialAll trioCluster).cluster =
      { cluster := (Connect dialAll trioCluster).cluster,
        err := some "Already connected to peers.", dials := [] } :=
  ⟨by decide, by decide,
    Connect_again_rejected dialButTwo (Connect dialAll trioCluster).cluster (by decide)⟩

/-- C10: on a cluster view with `hasConnected` false (and a peer map with
distinct keys), if every dial succeeds `Connect` returns no error, every peer
holds the channel its dial returned and `hasConnected` is true; if some dial
fails `Connect` returns the error of a failed dial and `hasConnected` stays
false; in both cases key, roleId, address, port and requirePromise of every
peer, and `skipPromiseCount`, are unchanged. -/
theorem Connect_all_or_nothing (dial : Nat → String → Except String Conn) (c : Cluster)
    (hfresh : c.hasConnected = false) (hkeys : (keys c.nodes).Nodup) :
    ((∀ e ∈ c.nodes, ∃ conn, dial e.1 (e.2.address ++ ":" ++ e.2.port) = .ok conn) →
      (Connect dial c).err = none ∧ (Connect dial c).cluster.hasConnected = true ∧
      ∀ e ∈ (Connect dial c).cluster.nodes,
        ∃ conn, dial e.1 (e.2.address ++ ":" ++ e.2.port) = .ok conn ∧
          e.2.comm = some conn) ∧
    ((∃ e ∈ c.nodes, ∃ err, dial e.1 (e.2.address ++ ":" ++ e.2.port) = .error err) →
      (∃ e ∈ c.nodes, ∃ err, dial e.1 (e.2.address ++ ":" ++ e.2.port) = .error err ∧
        (Connect dial c).err = some err) ∧
      (Connect dial c).cluster.hasConnected = false) ∧
    (Connect dial c).cluster.nodes.map identity = c.nodes.map identity ∧
    (Connect dial c).cluster.skipPromiseCount = c.skipPromiseCount := by
  obtain ⟨hn, he, hh, hs, _⟩ := Connect_fresh dial c hfresh hkeys
  refine ⟨?_, ?_, ?_, hs⟩
  · intro hall
    obtain ⟨h1, h2⟩ := connectInPlace_all_ok dial c.nodes hall
    refine ⟨by rw [he, h1], by rw [hh, h1]; rfl, ?_⟩
    rw [hn]; exact h2
  · intro hsome
    obtain ⟨e, hmem, err, hd, hres⟩ := connectInPlace_some_error dial c.nodes hsome
    refine ⟨⟨e, hmem, err, hd, by rw [he, hres]⟩, by rw [hh, hres]; rfl⟩
  · rw [hn]; exact connectInPlace_identity dial c.nodes

/-- Witness of `Connect_all_or_nothing`: the three-peer cluster on a network
where every dial succeeds, and on one where peer 2 refuses. -/
theorem Connect_all_or_nothing_witness :
    (trioCluster.hasConnected = false ∧ (keys trioCluster.nodes).Nodup) ∧
    ((Connect dialAll trioCluster).err = none ∧
      (Connect dialAll trioCluster).cluster.hasConnected = true) ∧
    (Connect dialButTwo trioCluster).cluster.hasConnected = false :=
  ⟨⟨by decide, by decide⟩,
    ⟨((Connect_all_or_nothing dialAll trioCluster (by decide) (by decide)).1
        (fun e _ => ⟨100 + e.1, rfl⟩)).1,
      ((Connect_all_or_nothing dialAll trioCluster (by decide) (by decide)).1
        (fun e _ => ⟨100 + e.1, rfl⟩)).2.1⟩,
    ((Connect_all_or_nothing dialButTwo trioCluster (by decide) (by decide)).2.1
      ⟨(2, loadedPeer 2 "10.0.0.2" "7002"), by decide, "connection refused", rfl⟩).2⟩

/-! ## Membership table -/

theorem mem_store (m : List (Nat × Peer)) (k : Nat) (p : Peer) (e : Nat × Peer)
    (h : e ∈ store m k p) : e = (k, p) ∨ e ∈ m := by
  induction m with
  | nil => simpa [store] using h
  | cons e' rest ih =>
    obtain ⟨k', p'⟩ := e'
    by_cases hk : k' = k
    · simp only [store, hk, if_true, List.mem_cons] at h
      rcases h with h | h
      · exact Or.inl h
      · exact Or.inr (List.mem_cons_of_mem _ h)
    · simp only [store, hk, if_false, List.mem_cons] at h
      rcases h with h | h
      · exact Or.inr (h ▸ List.mem_cons_self _ _)
      · rcases ih h with h | h
        · exact Or.inl h
        · exact Or.inr (List.mem_cons_of_mem _ h)

/-- What the read loop has built when it ends at `io.EOF`: the keys are those it
started with and the parsed identifiers of the records, and every entry it
added is a loaded peer filed under its own identifier. -/
theorem readPeers_eof (reads : List (Except String (List String)))
    (nodes result : List (Nat × Peer)) (h : readPeers reads nodes = some (result, none)) :
    (∀ k, k ∈ keys result ↔
      k ∈ keys nodes ∨
        ∃ f0 fields, Except.ok (f0 :: fields) ∈ reads ∧ ParseUint f0 = .ok k) ∧
    (∀ e ∈ result, e ∈ nodes ∨
      (e.2.roleId = e.1 ∧ e.2.requirePromise = true ∧ e.2.comm = none)) := by
  induction reads generalizing nodes with
  | nil =>
    simp only [readPeers, Option.some.injEq, Prod.mk.injEq, and_true] at h
    subst h
    exact ⟨fun k => by simp, fun e he => Or.inl he⟩
  | cons r rest ih =>
    cases r with
    | error err => simp [readPeers] at h
    | ok record =>
      cases record with
      | nil => simp [readPeers] at h
      | cons f0 fields =>
        cases hp : ParseUint f0 with
        | error err => simp [readPeers, hp] at h
        | ok roleId =>
          cases fields with
          | nil => simp [readPeers, hp] at h
          | cons f1 fields1 =>
            cases fields1 with
            | nil => simp [readPeers, hp] at h
            | cons f2 more =>
              simp only [readPeers, hp] at h
              obtain ⟨hkeys, hent⟩ := ih _ h
              constructor
              · intro k
                rw [hkeys k, mem_keys_store]
                constructor
                · rintro ((hk | hk) | ⟨g0, gs, hmem, hg⟩)
                  · right
                    exact ⟨f0, f1 :: f2 :: more, List.mem_cons_self _ _, hk ▸ hp⟩
                  · left; exact hk
                  · right
                    exact ⟨g0, gs, List.mem_cons_of_mem _ hmem, hg⟩
                · rintro (hk | ⟨g0, gs, hmem, hg⟩)
                  · left; right; exact hk
                  · rcases List.mem_cons.mp hmem with hhead | htail
                    · left; left
                      have h0 : g0 = f0 := by
                        simp only [Except.ok.injEq, List.cons.injEq] at hhead
                        exact hhead.1
                      rw [h0, hp] at hg
                      simp only [Except.ok.injEq] at hg
                      exact hg.symm
                    · right; exact ⟨g0, gs, htail, hg⟩
              · intro e he
                rcases hent e he with hin | hnew
                · rcases mem_store _ _ _ _ hin with heq | hold
                  · right; subst heq; exact ⟨rfl, rfl, rfl⟩
                  · left; exact hold
                · right; exact hnew

/-- A non-zero result of the search loop is the key of a visited peer whose
address is the one looked for. -/
theorem resolveSelf_found (visited : List (Nat × Peer)) (address : String)
    (h : resolveSelf visited address ≠ 0) :
    ∃ e ∈ visited, e.1 = resolveSelf visited address ∧ e.2.address = address := by
  induction visited with
  | nil => simp [resolveSelf] at h
  | cons e rest ih =>
    obtain ⟨id, peer⟩ := e
    by_cases ha : peer.address = address
    · exact ⟨(id, peer), List.mem_cons_self _ _, by simp [resolveSelf, ha], ha⟩
    · simp only [resolveSelf, ha, if_false] at h ⊢
      obtain ⟨e, he, hkey, haddr⟩ := ih h
      exact ⟨e, List.mem_cons_of_mem _ he, hkey, haddr⟩

/-- What a successful `ConstructCluster` returns: the map the read loop built,
no connection, a zero counter, and the self identifier, resolved or assigned. -/
theorem ConstructCluster_success (host : Host) (assignedId : Nat)
    (reads : List (Except String (List String))) (r : Construction)
    (hfile : host.peersFile = .ok reads)
    (h : ConstructCluster host assignedId = some r) (hok : r.err = none) :
    readPeers reads [] = some (r.cluster.nodes, none) ∧
    r.cluster.hasConnected = false ∧ r.cluster.skipPromiseCount = 0 ∧
    r.cluster.roleId = r.selfId ∧ r.selfId ≠ 0 ∧
    (assignedId = 0 → ∃ name address more,
      host.hostname = .ok name ∧ host.lookupHost name = .ok (address :: more) ∧
      r.selfId = resolveSelf (host.rangeOrder r.cluster.nodes) address) ∧
    (assignedId ≠ 0 → r.selfId = assignedId) := by
  unfold ConstructCluster at h
  simp only [hfile] at h
  cases hrd : readPeers reads [] with
  | none => simp [hrd] at h
  | some pr =>
    obtain ⟨nodes, rerr⟩ := pr
    cases rerr with
    | some err =>
      simp only [hrd, Option.some.injEq] at h
      subst h
      simp at hok
    | none =>
      simp only [hrd] at h
      by_cases ha : assignedId = 0
      · simp only [ha, if_true] at h
        cases hname : host.hostname with
        | error err =>
          simp only [hname, Option.some.injEq] at h
          subst h; simp at hok
        | ok name =>
          simp only [hname] at h
          cases hlook : host.lookupHost name with
          | error err =>
            simp only [hlook, Option.some.injEq] at h
            subst h; simp at hok
          | ok addresses =>
            cases addresses with
            | nil => simp [hlook] at h
            | cons address more =>
              simp only [hlook] at h
              by_cases hid : resolveSelf (host.rangeOrder nodes) address = 0
              · simp only [hid, if_true, Option.some.injEq] at h
                subst h; simp at hok
              · simp only [hid, if_false, Option.some.injEq] at h
                subst h
                exact ⟨rfl, rfl, rfl, rfl, hid,
                  fun _ => ⟨name, address, more, rfl, hlook, rfl⟩,
                  fun hne => absurd ha hne⟩
      · simp only [ha, if_false, Option.some.injEq] at h
        subst h
        exact ⟨rfl, rfl, rfl, rfl, ha, fun h0 => absurd h0 ha, fun _ => rfl⟩

theorem exemptPeers_eq_zero (m : List (Nat × Peer))
    (h : ∀ e ∈ m, e.2.requirePromise = true) : exemptPeers m = 0 := by
  unfold exemptPeers
  rw [List.length_eq_zero, List.filter_eq_nil_iff]
  intro e he
  simp [h e he]

/-- The state `ConstructCluster` builds has its counter equal to the number of
exempt peers: both are 0. -/
theorem ConstructCluster_consistent (host : Host) (assignedId : Nat)
    (reads : List (Except String (List String))) (r : Construction)
    (hfile : host.peersFile = .ok reads)
    (h : ConstructCluster host assignedId = some r) (hok : r.err = none) :
    CountConsistent r.cluster := by
  obtain ⟨hrd, _, hskip, _⟩ := ConstructCluster_success host assignedId reads r hfile h hok
  obtain ⟨_, hent⟩ := readPeers_eof reads [] r.cluster.nodes hrd
  unfold CountConsistent
  rw [hskip, exemptPeers_eq_zero]
  intro e he
  rcases hent e he with hin | hnew
  · simp at hin
  · exact hnew.2.1

theorem exemptPeers_of_identity (m m' : List (Nat × Peer))
    (h : m.map identity = m'.map identity) : exemptPeers m = exemptPeers m' := by
  have key : ∀ l : List (Nat × Peer),
      exemptPeers l = ((l.map identity).filter (fun x => !x.2.2.2.2)).length := by
    intro l
    unfold exemptPeers
    rw [List.filter_map, List.length_map]
    rfl
  rw [key m, key m', h]

/-- Connecting keeps the counter equal to the number of exempt peers. -/
theorem Connect_consistent (dial : Nat → String → Except String Conn) (c : Cluster)
    (hkeys : (keys c.nodes).Nodup) (hc : CountConsistent c) :
    CountConsistent (Connect dial c).cluster := by
  cases hconn : c.hasConnected with
  | true => simpa [Connect, hconn] using hc
  | false =>
    obtain ⟨hn, _, _, hs, _⟩ := Connect_fresh dial c hconn hkeys
    unfold CountConsistent at hc ⊢
    rw [hs, hc]
    have hid : (Connect dial c).cluster.nodes.map identity = c.nodes.map identity := by
      rw [hn]; exact connectInPlace_identity dial c.nodes
    exact (exemptPeers_of_identity _ _ hid).symm

/-- C9, as stated, fails for an assigned identifier that is not in the roster:
with the valid three-record roster (identifiers 1, 2, 3) and `assignedId = 7`
`ConstructCluster` succeeds and returns 7, which is not a key of the map. -/
theorem ConstructCluster_assigned_id_not_in_roster :
    ConstructCluster trioHost 7 = some ⟨{ trioCluster with roleId := 7 }, 7, none⟩ ∧
    keys ({ trioCluster with roleId := 7 } : Cluster).nodes = [1, 2, 3] ∧
    7 ∉ keys ({ trioCluster with roleId := 7 } : Cluster).nodes := by
  refine ⟨by decide, by decide, by decide⟩

/-- C9 (amended): when `ConstructCluster` succeeds on the roster `reads`, in
whatever order the runtime ranges over the map, the keys of the peer map are
exactly the identifiers parsed from the roster, each peer's `roleId` equals its
key, the returned `resolvedSelfId` is non-zero and is the cluster's own
`roleId`; when `assignedId = 0` it is a key of the map, the key of a peer whose
address is the first address of the host; when `assignedId` is not 0 it is
`assignedId`, whether in the roster or not. -/
theorem ConstructCluster_membership (host : Host) (assignedId : Nat)
    (reads : List (Except String (List String))) (r : Construction)
    (hrange : ∀ m, (host.rangeOrder m).Perm m)
    (hfile : host.peersFile = .ok reads)
    (h : ConstructCluster host assignedId = some r) (hok : r.err = none) :
    (∀ k, k ∈ keys r.cluster.nodes ↔
      ∃ f0 fields, Except.ok (f0 :: fields) ∈ reads ∧ ParseUint f0 = .ok k) ∧
    (∀ e ∈ r.cluster.nodes, e.2.roleId = e.1) ∧
    r.selfId ≠ 0 ∧ r.cluster.roleId = r.selfId ∧
    (assignedId = 0 → r.selfId ∈ keys r.cluster.nodes) ∧
    (assignedId = 0 → ∃ name address more,
      host.hostname = .ok name ∧ host.lookupHost name = .ok (address :: more) ∧
      ∃ e ∈ r.cluster.nodes, e.1 = r.selfId ∧ e.2.address = address) ∧
    (assignedId ≠ 0 → r.selfId = assignedId) := by
  obtain ⟨hrd, _, _, hrole, hne, hres, hasg⟩ :=
    ConstructCluster_success host assignedId reads r hfile h hok
  obtain ⟨hkeys, hent⟩ := readPeers_eof reads [] r.cluster.nodes hrd
  have hfound : assignedId = 0 → ∃ name address more,
      host.hostname = .ok name ∧ host.lookupHost name = .ok (address :: more) ∧
      ∃ e ∈ r.cluster.nodes, e.1 = r.selfId ∧ e.2.address = address := by
    intro h0
    obtain ⟨name, address, more, hname, hlook, hself⟩ := hres h0
    obtain ⟨e, he, hkey, haddr⟩ :=
      resolveSelf_found (host.rangeOrder r.cluster.nodes) address (by rw [← hself]; exact hne)
    exact ⟨name, address, more, hname, hlook, e, (hrange _).mem_iff.mp he,
      by rw [hkey, hself], haddr⟩
  refine ⟨?_, ?_, hne, hrole, ?_, hfound, hasg⟩
  · intro k; rw [hkeys k]; simp [keys]
  · intro e he
    rcases hent e he with hin | hnew
    · simp at hin
    · exact hnew.1
  · intro h0
    obtain ⟨_, _, _, _, _, e, he, hkey, _⟩ := hfound h0
    rw [← hkey]
    exact List.mem_map.mpr ⟨e, he, rfl⟩

/-- Witness of `ConstructCluster_membership`: the three-record roster with the
self identifier resolved from the host address, the map ranged over in reverse
roster order. -/
theorem ConstructCluster_membership_witness :
    (trioHost.peersFile = .ok [.ok ["1", "10.0.0.1", "7001"], .ok ["2", "10.0.0.2", "7002"],
      .ok ["3", "10.0.0.3", "7003"]] ∧
      ConstructCluster trioHost 0 = some ⟨trioCluster, 2, none⟩) ∧
    (2 : Nat) ≠ 0 ∧ 2 ∈ keys trioCluster.nodes :=
  ⟨⟨rfl, by decide⟩,
    (ConstructCluster_membership trioHost 0 _ ⟨trioCluster, 2, none⟩
      (fun m => List.reverse_perm m) rfl (by decide) rfl).2.2.1,
    (ConstructCluster_membership trioHost 0 _ ⟨trioCluster, 2, none⟩
      (fun m => List.reverse_perm m) rfl (by decide) rfl).2.2.2.2.1 rfl⟩

/-! ## Reply aggregation -/

theorem timeout_le_windows (n peerCount : Nat) (h : n < peerCount) :
    replyTimeout ≤ (peerCount - n) * replyTimeout :=
  Nat.le_mul_of_pos_left _ (by omega)

theorem windows_step (n peerCount : Nat) (h : n < peerCount) :
    replyTimeout + (peerCount - (n + 1)) * replyTimeout = (peerCount - n) * replyTimeout := by
  have : peerCount - n = (peerCount - (n + 1)) + 1 := by omega
  rw [this, Nat.add_mul, Nat.one_mul, Nat.add_comm]

theorem clockAfter_cons (now t : Nat) (ts : List Nat) :
    clockAfter now (t :: ts) = clockAfter (max now t) ts := by
  simp [clockAfter]

/-- The three shapes of one pass through the loop body of `wrapReply`. -/
theorem wrapReplyFrom_cons {α : Type} (peerCount : Nat) (tie : Nat → Bool)
    (ready : Nat → Option Nat) (t : Nat) (reply : Call α) (rest : List (Nat × Call α))
    (n now : Nat) (fwd : Chan (Response α)) (h : n < peerCount) :
    (¬ (t < now + replyTimeout ∨ (t = now + replyTimeout ∧ tie n = true)) →
      wrapReplyFrom peerCount tie ready ((t, reply) :: rest) n now fwd =
        { forward := fwd, replyCount := n, finishedAt := now + replyTimeout,
          exit := .timeout }) ∧
    ((t < now + replyTimeout ∨ (t = now + replyTimeout ∧ tie n = true)) →
      fwd.sendDone ready (max now t) = none →
      wrapReplyFrom peerCount tie ready ((t, reply) :: rest) n now fwd =
        { forward := fwd, replyCount := n, finishedAt := max now t, exit := .never }) ∧
    (∀ sent, (t < now + replyTimeout ∨ (t = now + replyTimeout ∧ tie n = true)) →
      fwd.sendDone ready (max now t) = some sent →
      wrapReplyFrom peerCount tie ready ((t, reply) :: rest) n now fwd =
        wrapReplyFrom peerCount tie ready rest (n + 1) sent
          (fwd.send { Error := reply.Error, Data := reply.Reply })) := by
  refine ⟨?_, ?_, ?_⟩
  · intro hc
    simp only [wrapReplyFrom, h, hc, if_true, if_false]
  · intro hc hs
    simp only [wrapReplyFrom, h, hc, if_true, hs]
  · intro sent hc hs
    simp only [wrapReplyFrom, h, hc, if_true, hs]

theorem wrapReplyFrom_nil {α : Type} (peerCount : Nat) (tie : Nat → Bool)
    (ready : Nat → Option Nat) (n now : Nat) (fwd : Chan (Response α)) :
    (n < peerCount →
      wrapReplyFrom peerCount tie ready ([] : List (Nat × Call α)) n now fwd =
        { forward := fwd, replyCount := n, finishedAt := now + replyTimeout,
          exit := .timeout }) ∧
    (¬ n < peerCount →
      wrapReplyFrom peerCount tie ready ([] : List (Nat × Call α)) n now fwd =
        { forward := fwd, replyCount := n, finishedAt := now, exit := .count }) := by
  refine ⟨?_, ?_⟩
  · intro h; simp only [wrapReplyFrom, h, if_true]
  · intro h; simp only [wrapReplyFrom, h, if_false]

theorem wrapReplyFrom_full {α : Type} (peerCount : Nat) (tie : Nat → Bool)
    (ready : Nat → Option Nat) (arrivals : List (Nat × Call α)) (n now : Nat)
    (fwd : Chan (Response α)) (h : ¬ n < peerCount) :
    wrapReplyFrom peerCount tie ready arrivals n now fwd =
      { forward := fwd, replyCount := n, finishedAt := now, exit := .count } := by
  cases arrivals with
  | nil => exact (wrapReplyFrom_nil peerCount tie ready n now fwd).2 h
  | cons a rest =>
    obtain ⟨t, reply⟩ := a
    simp only [wrapReplyFrom, h, if_false]

/-- The collection loop from loop state `n`, whatever the capacity of the
result channel and the caller's readiness: it forwards the first `k` arrivals,
in order, leaves the channel open, and leaves the loop at the loop test
exactly when the count is reached. -/
theorem wrapReplyFrom_spec {α : Type} (peerCount : Nat) (tie : Nat → Bool)
    (ready : Nat → Option Nat) (arrivals : List (Nat × Call α)) (n now : Nat)
    (fwd : Chan (Response α)) (hn : n ≤ peerCount) :
    ∃ k, k ≤ arrivals.length ∧
      (wrapReplyFrom peerCount tie ready arrivals n now fwd).replyCount = n + k ∧
      n + k ≤ peerCount ∧
      (wrapReplyFrom peerCount tie ready arrivals n now fwd).forward.queue =
        fwd.queue ++ (arrivals.take k).map (fun a => toResponse a.2) ∧
      (wrapReplyFrom peerCount tie ready arrivals n now fwd).forward.closed = fwd.closed ∧
      ((wrapReplyFrom peerCount tie ready arrivals n now fwd).exit = .count ↔
        n + k = peerCount) := by
  induction arrivals generalizing n now fwd with
  | nil =>
    refine ⟨0, Nat.le_refl _, ?_⟩
    by_cases h : n < peerCount
    · rw [(wrapReplyFrom_nil peerCount tie ready n now fwd).1 h]
      refine ⟨rfl, by omega, by simp, rfl, ?_⟩
      constructor
      · intro hf; cases hf
      · intro he; omega
    · rw [(wrapReplyFrom_nil peerCount tie ready n now fwd).2 h]
      refine ⟨rfl, by omega, by simp, rfl, ?_⟩
      constructor
      · intro _; omega
      · intro _; rfl
  | cons a rest ih =>
    obtain ⟨t, reply⟩ := a
    by_cases h : n < peerCount
    · obtain ⟨hout, hstuck, hgo⟩ :=
        wrapReplyFrom_cons peerCount tie ready t reply rest n now fwd h
      by_cases hc : t < now + replyTimeout ∨ (t = now + replyTimeout ∧ tie n = true)
      · cases hs : fwd.sendDone ready (max now t) with
        | none =>
          refine ⟨0, Nat.zero_le _, ?_⟩
          rw [hstuck hc hs]
          refine ⟨rfl, by omega, by simp, rfl, ?_⟩
          constructor
          · intro hf; cases hf
          · intro he; omega
        | some sent =>
          rw [hgo sent hc hs]
          obtain ⟨k, hk, hcount, hle, hq, hcl, hto⟩ :=
            ih (n + 1) sent (fwd.send { Error := reply.Error, Data := reply.Reply })
              (by omega)
          refine ⟨k + 1, by simp only [List.length_cons]; omega, by rw [hcount]; omega,
            by omega, ?_, ?_, ?_⟩
          · rw [hq]
            simp [Chan.send, toResponse]
          · rw [hcl]; rfl
          · rw [hto]; constructor <;> intro hx <;> omega
      · refine ⟨0, Nat.zero_le _, ?_⟩
        rw [hout hc]
        refine ⟨rfl, by omega, by simp, rfl, ?_⟩
        constructor
        · intro hf; cases hf
        · intro he; omega
    · refine ⟨0, Nat.zero_le _, ?_⟩
      rw [wrapReplyFrom_full peerCount tie ready _ n now fwd h]
      refine ⟨rfl, by omega, by simp, rfl, ?_⟩
      constructor
      · intro _; omega
      · intro _; rfl

/-- The collection loop on a result channel with room for `peerCount` results:
no send waits, the run ends, and every window it waits is one timeout long. -/
theorem wrapReplyFrom_timing {α : Type} (peerCount : Nat) (tie : Nat → Bool)
    (ready : Nat → Option Nat) (arrivals : List (Nat × Call α)) (n now : Nat)
    (fwd : Chan (Response α)) (hn : n ≤ peerCount) (hroom : peerCount ≤ fwd.capacity)
    (hlen : fwd.queue.length = n) :
    ∃ k, (wrapReplyFrom peerCount tie ready arrivals n now fwd).replyCount = n + k ∧
      (wrapReplyFrom peerCount tie ready arrivals n now fwd).exit ≠ .never ∧
      (wrapReplyFrom peerCount tie ready arrivals n now fwd).finishedAt ≤
        now + (peerCount - n) * replyTimeout ∧
      (wrapReplyFrom peerCount tie ready arrivals n now fwd).finishedAt ≤
        clockAfter now ((arrivals.take k).map Prod.fst) + replyTimeout ∧
      ∀ i t reply, i < k → arrivals[i]? = some (t, reply) →
        t ≤ clockAfter now ((arrivals.take i).map Prod.fst) + replyTimeout := by
  induction arrivals generalizing n now fwd with
  | nil =>
    refine ⟨0, ?_⟩
    by_cases h : n < peerCount
    · have hw := timeout_le_windows n peerCount h
      rw [(wrapReplyFrom_nil peerCount tie ready n now fwd).1 h]
      refine ⟨rfl, (by intro hf; cases hf), ?_, ?_, ?_⟩
      · show now + replyTimeout ≤ now + (peerCount - n) * replyTimeout
        omega
      · show now + replyTimeout ≤ _
        simp [clockAfter]
      · intro i t reply hi; omega
    · rw [(wrapReplyFrom_nil peerCount tie ready n now fwd).2 h]
      refine ⟨rfl, (by intro hf; cases hf), ?_, ?_, ?_⟩
      · show now ≤ now + (peerCount - n) * replyTimeout
        omega
      · show now ≤ _
        simp [clockAfter]
      · intro i t reply hi; omega
  | cons a rest ih =>
    obtain ⟨t, reply⟩ := a
    by_cases h : n < peerCount
    · obtain ⟨hout, _, hgo⟩ :=
        wrapReplyFrom_cons peerCount tie ready t reply rest n now fwd h
      by_cases hc : t < now + replyTimeout ∨ (t = now + replyTimeout ∧ tie n = true)
      · have hs : fwd.sendDone ready (max now t) = some (max now t) := by
          have : fwd.queue.length < fwd.capacity := by omega
          simp [Chan.sendDone, this]
        rw [hgo (max now t) hc hs]
        obtain ⟨k, hcount, hnever, hfin, hfin2, harr⟩ :=
          ih (n + 1) (max now t) (fwd.send { Error := reply.Error, Data := reply.Reply })
            (by omega) (by simpa [Chan.send] using hroom) (by simp [Chan.send, hlen])
        have hmax : max now t ≤ now + replyTimeout := by
          rcases hc with hc | hc
          · exact max_le (by omega) (by omega)
          · exact max_le (by omega) (by omega)
        have hws := windows_step n peerCount h
        refine ⟨k + 1, by rw [hcount]; omega, hnever, by omega, ?_, ?_⟩
        · simpa [clockAfter_cons] using hfin2
        · intro i t' reply' hi hget
          cases i with
          | zero =>
            simp only [List.getElem?_cons_zero, Option.some.injEq, Prod.mk.injEq] at hget
            obtain ⟨ht, _⟩ := hget
            subst ht
            simp only [List.take_zero, List.map_nil, clockAfter, List.foldl_nil]
            rcases hc with hc | hc <;> omega
          | succ j =>
            simp only [List.getElem?_cons_succ] at hget
            have := harr j t' reply' (by omega) hget
            simpa [clockAfter_cons] using this
      · have hw := timeout_le_windows n peerCount h
        refine ⟨0, ?_⟩
        rw [hout hc]
        refine ⟨rfl, (by intro hf; cases hf), ?_, ?_, ?_⟩
        · show now + replyTimeout ≤ now + (peerCount - n) * replyTimeout
          omega
        · show now + replyTimeout ≤ _
          simp [clockAfter]
        · intro i t' reply' hi; omega
    · refine ⟨0, ?_⟩
      rw [wrapReplyFrom_full peerCount tie ready _ n now fwd h]
      refine ⟨rfl, (by intro hf; cases hf), ?_, ?_, ?_⟩
      · show now ≤ now + (peerCount - n) * replyTimeout
        omega
      · show now ≤ _
        simp [clockAfter]
      · intro i t' reply' hi; omega

/-- Replies that all arrive within the first window are collected until the
count is reached or none is left, unless a send blocks for good. -/
theorem wrapReplyFrom_prompt {α : Type} (peerCount : Nat) (tie : Nat → Bool)
    (ready : Nat → Option Nat) (arrivals : List (Nat × Call α)) (n now : Nat)
    (fwd : Chan (Response α)) (hn : n ≤ peerCount)
    (hprompt : ∀ a ∈ arrivals, a.1 < replyTimeout)
    (hends : (wrapReplyFrom peerCount tie ready arrivals n now fwd).exit ≠ .never) :
    (wrapReplyFrom peerCount tie ready arrivals n now fwd).replyCount =
      min peerCount (n + arrivals.length) := by
  induction arrivals generalizing n now fwd with
  | nil =>
    by_cases h : n < peerCount
    · rw [(wrapReplyFrom_nil peerCount tie ready n now fwd).1 h]
      simp only [List.length_nil]; omega
    · rw [(wrapReplyFrom_nil peerCount tie ready n now fwd).2 h]
      simp only [List.length_nil]; omega
  | cons a rest ih =>
    obtain ⟨t, reply⟩ := a
    have ht : t < replyTimeout := hprompt (t, reply) (List.mem_cons_self _ _)
    by_cases h : n < peerCount
    · obtain ⟨_, hstuck, hgo⟩ :=
        wrapReplyFrom_cons peerCount tie ready t reply rest n now fwd h
      have hc : t < now + replyTimeout ∨ (t = now + replyTimeout ∧ tie n = true) :=
        Or.inl (by omega)
      cases hs : fwd.sendDone ready (max now t) with
      | none =>
        rw [hstuck hc hs] at hends
        exact absurd rfl hends
      | some sent =>
        rw [hgo sent hc hs] at hends ⊢
        rw [ih (n + 1) sent _ (by omega)
          (fun a ha => hprompt a (List.mem_cons_of_mem _ ha)) hends]
        simp only [List.length_cons]; omega
    · rw [wrapReplyFrom_full peerCount tie ready _ n now fwd h]
      simp only [List.length_cons]; omega

/-- With a caller that comes for every result, no send blocks for good. -/
theorem wrapReplyFrom_live {α : Type} (peerCount : Nat) (tie : Nat → Bool)
    (ready : Nat → Option Nat) (arrivals : List (Nat × Call α)) (n now : Nat)
    (fwd : Chan (Response α)) (hlive : ∀ j, ready j ≠ none) :
    (wrapReplyFrom peerCount tie ready arrivals n now fwd).exit ≠ .never := by
  induction arrivals generalizing n now fwd with
  | nil =>
    by_cases h : n < peerCount
    · rw [(wrapReplyFrom_nil peerCount tie ready n now fwd).1 h]
      intro hf; cases hf
    · rw [(wrapReplyFrom_nil peerCount tie ready n now fwd).2 h]
      intro hf; cases hf
  | cons a rest ih =>
    obtain ⟨t, reply⟩ := a
    by_cases h : n < peerCount
    · obtain ⟨hout, _, hgo⟩ :=
        wrapReplyFrom_cons peerCount tie ready t reply rest n now fwd h
      by_cases hc : t < now + replyTimeout ∨ (t = now + replyTimeout ∧ tie n = true)
      · cases hs : fwd.sendDone ready (max now t) with
        | none =>
          exfalso
          unfold Chan.sendDone at hs
          split at hs
          · cases hs
          · cases hr : ready (fwd.queue.length - fwd.capacity) with
            | none => exact hlive _ hr
            | some r => simp [hr] at hs
        | some sent =>
          rw [hgo sent hc hs]
          exact ih (n + 1) sent _
      · rw [hout hc]
        intro hf; cases hf
    · rw [wrapReplyFrom_full peerCount tie ready _ n now fwd h]
      intro hf; cases hf

theorem readUntilClosed_open {β : Type} (capacity : Nat) (q : List β) :
    readUntilClosed (q.length + 1) { capacity := capacity, queue := q, closed := false } =
      some (q, false) := by
  induction q with
  | nil => simp [readUntilClosed, Chan.recv]
  | cons v q ih =>
    have hstep : readUntilClosed (q.length + 1 + 1)
          { capacity := capacity, queue := v :: q, closed := false } =
        match readUntilClosed (q.length + 1)
          { capacity := capacity, queue := q, closed := false } with
        | none => none
        | some (vs, ended) => some (v :: vs, ended) := rfl
    simp only [List.length_cons]
    rw [hstep, ih]

/-- C4: for every `peerCount`, every sequence of replies arriving on the
endpoint, every capacity of the result channel and every pace of its reader,
what `wrapReply` forwards is an initial segment of the arrival sequence, in
arrival order, of `replyCount` results with `replyCount` at most `peerCount`,
each result carrying that reply's `Error` and `Reply`; it leaves the loop at
the loop test exactly when `peerCount` replies were forwarded; on a channel
with room for `peerCount` results, or with a reader that comes for every
result, it does not block for good; and replies that all arrive within the
first window are all forwarded up to `peerCount` unless it blocks for good. -/
theorem wrapReply_forwards_arrivals {α : Type} (peerCount : Nat) (tie : Nat → Bool)
    (ready : Nat → Option Nat) (capacity : Nat) (arrivals : List (Nat × Call α)) :
    (wrapReply peerCount tie ready arrivals (Chan.make capacity)).replyCount ≤ peerCount ∧
    (wrapReply peerCount tie ready arrivals (Chan.make capacity)).forward.queue =
      (arrivals.take
        (wrapReply peerCount tie ready arrivals (Chan.make capacity)).replyCount).map
        (fun a => { Error := a.2.Error, Data := a.2.Reply }) ∧
    (wrapReply peerCount tie ready arrivals (Chan.make capacity)).forward.queue <+:
      arrivals.map (fun a => { Error := a.2.Error, Data := a.2.Reply }) ∧
    (wrapReply peerCount tie ready arrivals (Chan.make capacity)).forward.queue.length =
      (wrapReply peerCount tie ready arrivals (Chan.make capacity)).replyCount ∧
    ((wrapReply peerCount tie ready arrivals (Chan.make capacity)).exit = .count ↔
      (wrapReply peerCount tie ready arrivals (Chan.make capacity)).replyCount =
        peerCount) ∧
    ((peerCount ≤ capacity ∨ ∀ j, ready j ≠ none) →
      (wrapReply peerCount tie ready arrivals (Chan.make capacity)).exit ≠ .never) ∧
    ((∀ a ∈ arrivals, a.1 < replyTimeout) →
      (wrapReply peerCount tie ready arrivals (Chan.make capacity)).exit ≠ .never →
      (wrapReply peerCount tie ready arrivals (Chan.make capacity)).replyCount =
        min peerCount arrivals.length) := by
  obtain ⟨k, hk, hcount, hle, hq, _, hto⟩ :=
    wrapReplyFrom_spec peerCount tie ready arrivals 0 0 (Chan.make capacity)
      (Nat.zero_le _)
  simp only [Nat.zero_add] at hcount hle hto
  have hq2 : (wrapReply peerCount tie ready arrivals (Chan.make capacity)).forward.queue =
      (arrivals.take k).map (fun a => { Error := a.2.Error, Data := a.2.Reply }) := by
    simpa [wrapReply, Chan.make, toResponse] using hq
  have hcount2 :
      (wrapReply peerCount tie ready arrivals (Chan.make capacity)).replyCount = k := hcount
  refine ⟨by rw [hcount2]; exact hle, by rw [hcount2]; exact hq2, ?_, ?_, ?_, ?_, ?_⟩
  · rw [hq2, List.map_take]
    exact List.take_prefix _ _
  · rw [hq2, hcount2, List.length_map, List.length_take]
    omega
  · rw [hcount2]; exact hto
  · rintro (hroom | hlive)
    · obtain ⟨_, _, hnever, _⟩ :=
        wrapReplyFrom_timing peerCount tie ready arrivals 0 0 (Chan.make capacity)
          (Nat.zero_le _) hroom rfl
      exact hnever
    · exact wrapReplyFrom_live peerCount tie ready arrivals 0 0 (Chan.make capacity) hlive
  · intro hprompt hends
    have := wrapReplyFrom_prompt peerCount tie ready arrivals 0 0 (Chan.make capacity)
      (Nat.zero_le _) hprompt hends
    simpa [wrapReply] using this

/-- Witness of `wrapReply_forwards_arrivals`: three prompt replies, a
`peerCount` of 2 and a result channel of capacity 2 whose reader never
comes. -/
theorem wrapReply_forwards_arrivals_witness :
    ((2 : Nat) ≤ 2 ∧
      ∀ a ∈ [(10, okReply 1), (20, okReply 2), (30, okReply 3)], a.1 < replyTimeout) ∧
    (wrapReply 2 (fun _ => false) neverReady
      [(10, okReply 1), (20, okReply 2), (30, okReply 3)] (Chan.make 2)).replyCount = 2 :=
  ⟨⟨by decide, by decide⟩,
    ((wrapReply_forwards_arrivals 2 (fun _ => false) neverReady 2
      [(10, okReply 1), (20, okReply 2), (30, okReply 3)]).2.2.2.2.2.2 (by decide)
      ((wrapReply_forwards_arrivals 2 (fun _ => false) neverReady 2
        [(10, okReply 1), (20, okReply 2), (30, okReply 3)]).2.2.2.2.2.1
          (Or.inl (by decide)))).trans
      (by decide)⟩

/-- C5, as stated, fails: with `peerCount = 2`, a result channel with room for
two results as the broadcasts make it, a first reply 1.5 seconds and a second
reply 3 seconds after the start, `wrapReply` forwards both and ends 3 seconds
after it started, later than the 2-second window, and the second reply was
delivered although it arrived more than 2 seconds after the start. -/
theorem wrapReply_window_restarts :
    (wrapReply 2 (fun _ => false) neverReady
      [(1500000000, okReply 1), (3000000000, okReply 2)] (Chan.make 2)).finishedAt =
      3000000000 ∧
    (wrapReply 2 (fun _ => false) neverReady
      [(1500000000, okReply 1), (3000000000, okReply 2)] (Chan.make 2)).exit = .count ∧
    (wrapReply 2 (fun _ => false) neverReady
      [(1500000000, okReply 1), (3000000000, okReply 2)] (Chan.make 2)).forward.queue =
      [{ Error := none, Data := 1 }, { Error := none, Data := 2 }] ∧
    replyTimeout < 3000000000 := by
  refine ⟨by decide, by decide, by decide, by decide⟩

/-- C5 (amended): the 2-second window restarts with every reply received.  On
a result channel with room for `peerCount` results, as the two broadcasts make
it, `wrapReply` ends, no later than `peerCount` windows after it started and
no later than one window after it received its last forwarded reply (after its
start when it forwarded none), and every reply it delivers arrived no later
than one window after the previous delivered reply was received (after the
start, for the first). -/
theorem wrapReply_window_per_reply {α : Type} (peerCount : Nat) (tie : Nat → Bool)
    (ready : Nat → Option Nat) (capacity : Nat) (arrivals : List (Nat × Call α))
    (hroom : peerCount ≤ capacity) :
    (wrapReply peerCount tie ready arrivals (Chan.make capacity)).exit ≠ .never ∧
    (wrapReply peerCount tie ready arrivals (Chan.make capacity)).finishedAt ≤
      peerCount * replyTimeout ∧
    (wrapReply peerCount tie ready arrivals (Chan.make capacity)).finishedAt ≤
      clockAfter 0 ((arrivals.take
        (wrapReply peerCount tie ready arrivals (Chan.make capacity)).replyCount).map
          Prod.fst) + replyTimeout ∧
    ∀ i t reply,
      i < (wrapReply peerCount tie ready arrivals (Chan.make capacity)).replyCount →
      arrivals[i]? = some (t, reply) →
      t ≤ clockAfter 0 ((arrivals.take i).map Prod.fst) + replyTimeout := by
  obtain ⟨k, hcount, hnever, hfin, hfin2, harr⟩ :=
    wrapReplyFrom_timing peerCount tie ready arrivals 0 0 (Chan.make capacity)
      (Nat.zero_le _) hroom rfl
  simp only [Nat.zero_add, Nat.sub_zero] at hcount hfin
  have hcount2 :
      (wrapReply peerCount tie ready arrivals (Chan.make capacity)).replyCount = k := hcount
  refine ⟨hnever, hfin, by rw [hcount2]; exact hfin2, ?_⟩
  intro i t reply hi hget
  rw [hcount2] at hi
  exact harr i t reply hi hget

/-- Witness of `wrapReply_window_per_reply`: the second reply, 3 seconds after
the start, is within one window of the first, received at 1.5 seconds. -/
theorem wrapReply_window_per_reply_witness :
    ((2 : Nat) ≤ 2 ∧
      1 < (wrapReply 2 (fun _ => false) neverReady
        [(1500000000, okReply 1), (3000000000, okReply 2)] (Chan.make 2)).replyCount) ∧
    3000000000 ≤ clockAfter 0 (([(1500000000, okReply 1), (3000000000, okReply 2)].take
      1).map Prod.fst) + replyTimeout :=
  ⟨⟨by decide, by decide⟩,
    (wrapReply_window_per_reply 2 (fun _ => false) neverReady 2
      [(1500000000, okReply 1), (3000000000, okReply 2)] (by decide)).2.2.2 1 3000000000
      (okReply 2) (by decide) rfl⟩

/-- On the unbuffered result channel that `NotifyOfSuccess` makes, the send of
line 243 waits for the caller: a reply that is there after 10 nanoseconds is
handed over when the caller is ready, here after 5 seconds, and with a caller
that never takes it `wrapReply` does not return. -/
theorem wrapReply_unbuffered_waits_for_caller :
    (wrapReply 1 (fun _ => false) readyAtFive [(10, okReply 1)] (Chan.make 0)).finishedAt =
      5000000000 ∧
    (wrapReply 1 (fun _ => false) readyAtFive [(10, okReply 1)] (Chan.make 0)).exit =
      .count ∧
    (wrapReply 1 (fun _ => false) neverReady [(10, okReply 1)] (Chan.make 0)).exit =
      .never := by
  refine ⟨by decide, by decide, by decide⟩

/-- C6, as stated, fails: the result channel is still open when `wrapReply`
has ended, be it at once with `peerCount = 0`, after the count was reached, or
after the timeout; a reader that waits for the close blocks. -/
theorem wrapReply_leaves_stream_open :
    (wrapReply 0 (fun _ => false) neverReady ([] : List (Nat × Call Nat))
      (Chan.make 0)).forward.closed = false ∧
    readUntilClosed 1
      (wrapReply 0 (fun _ => false) neverReady ([] : List (Nat × Call Nat))
        (Chan.make 0)).forward = some ([], false) ∧
    (wrapReply 1 (fun _ => false) neverReady [(10, okReply 1)] (Chan.make 1)).exit =
      .count ∧
    (wrapReply 1 (fun _ => false) neverReady [(10, okReply 1)]
      (Chan.make 1)).forward.closed = false ∧
    (wrapReply 1 (fun _ => false) neverReady ([] : List (Nat × Call Nat))
      (Chan.make 1)).exit = .timeout ∧
    (wrapReply 1 (fun _ => false) neverReady ([] : List (Nat × Call Nat))
      (Chan.make 1)).forward.closed = false := by
  refine ⟨by decide, by decide, by decide, by decide, by decide, by decide⟩

/-- C6 (amended): when aggregation ends, for whichever reason, `wrapReply` has
not closed the result channel, whatever its capacity: the channel holds the
forwarded results and is open, so a reader that receives until the channel is
closed gets the delivered results and then blocks. -/
theorem wrapReply_never_closes {α : Type} (peerCount : Nat) (tie : Nat → Bool)
    (ready : Nat → Option Nat) (capacity : Nat) (arrivals : List (Nat × Call α)) :
    (wrapReply peerCount tie ready arrivals (Chan.make capacity)).forward.closed = false ∧
    readUntilClosed
      ((wrapReply peerCount tie ready arrivals (Chan.make capacity)).replyCount + 1)
      (wrapReply peerCount tie ready arrivals (Chan.make capacity)).forward =
      some ((arrivals.take
        (wrapReply peerCount tie ready arrivals (Chan.make capacity)).replyCount).map
          (fun a => { Error := a.2.Error, Data := a.2.Reply }), false) := by
  obtain ⟨k, hk, hcount, _, hq, hcl, _⟩ :=
    wrapReplyFrom_spec peerCount tie ready arrivals 0 0 (Chan.make capacity)
      (Nat.zero_le _)
  simp only [Nat.zero_add] at hcount
  have hcount2 :
      (wrapReply peerCount tie ready arrivals (Chan.make capacity)).replyCount = k := hcount
  have hq2 : (wrapReply peerCount tie ready arrivals (Chan.make capacity)).forward.queue =
      (arrivals.take k).map (fun a => { Error := a.2.Error, Data := a.2.Reply }) := by
    simpa [wrapReply, Chan.make, toResponse] using hq
  have hcl2 :
      (wrapReply peerCount tie ready arrivals (Chan.make capacity)).forward.closed = false :=
    hcl
  refine ⟨hcl2, ?_⟩
  have hch : (wrapReply peerCount tie ready arrivals (Chan.make capacity)).forward =
      { capacity := (wrapReply peerCount tie ready arrivals (Chan.make capacity)).forward.capacity,
        queue := (arrivals.take k).map (fun a => { Error := a.2.Error, Data := a.2.Reply }),
        closed := false } := by
    rw [← hq2, ← hcl2]
  have hlen : ((arrivals.take k).map
      (fun a => ({ Error := a.2.Error, Data := a.2.Reply } : Response α))).length = k := by
    rw [List.length_map, List.length_take]; omega
  rw [hcount2, hch]
  have := readUntilClosed_open
    (wrapReply peerCount tie ready arrivals (Chan.make capacity)).forward.capacity
    ((arrivals.take k).map (fun a => ({ Error := a.2.Error, Data := a.2.Reply } : Response α)))
  rw [hlen] at this
  exact this

end clusterpeers
